import Mathlib

/-!
Verification of the address-aggregation routine of `generate_dashboard_html`
(src/main.py, lines 42-69): classification of raw address strings into
streets and intersections, normalization, counting and ranking.

Strings are modelled as lists of characters (`Str`).  The Python string
operations used by the source (`str.upper`, `str.strip`, substring test
`in`, `re.sub(r'^\d+\s+', '', ·)`, `str.replace`) are embedded as
executable functions on `Str`; `collections.Counter` together with
`most_common(n)` is embedded by `counterItems` (key/count pairs in
first-seen order) followed by a stable sort by count descending and
`take n`, which is the documented behaviour of `Counter.most_common`.
ASCII data is assumed (the address field of the dataset is ASCII): the
embeddings of `upper`, `strip` and `\d`/`\s` use the ASCII case.
-/

namespace Potholes

abbrev Str := List Char

/-- ASCII whitespace, the characters stripped by Python `str.strip()`. -/
def pyIsSpace (c : Char) : Bool :=
  c = ' ' || c = '\t' || c = '\n' || c = '\x0d' || c = '\x0b' || c = '\x0c'

/-- Python `str.upper()` (ASCII). -/
def pyUpper (s : Str) : Str := s.map Char.toUpper

/-- Python `str.strip()`: drop leading and trailing whitespace. -/
def pyStrip (s : Str) : Str :=
  ((s.dropWhile pyIsSpace).reverse.dropWhile pyIsSpace).reverse

/-- `leadsWith p s` holds when `p` is an initial segment of `s`. -/
def leadsWith : Str → Str → Bool
  | [], _ => true
  | _ :: _, [] => false
  | p :: ps, c :: cs => p == c && leadsWith ps cs

/-- Python substring test `pat in s`. -/
def containsSub (pat : Str) : Str → Bool
  | [] => leadsWith pat []
  | c :: cs => leadsWith pat (c :: cs) || containsSub pat cs

/-- Python `re.sub(r'^\d+\s+', '', s)` (source line 60): if `s` starts with a
maximal run of one or more digits followed by one or more whitespace
characters, remove that prefix, otherwise return `s` unchanged. -/
def stripLeadingNum (s : Str) : Str :=
  if s.takeWhile Char.isDigit = [] then s
  else if (s.dropWhile Char.isDigit).takeWhile pyIsSpace = [] then s
  else (s.dropWhile Char.isDigit).dropWhile pyIsSpace

/-- Left-to-right non-overlapping removal of the non-empty pattern `pat`,
continuing after each removed occurrence.  The `Nat` argument is fuel
(structural recursion); it is called with the length of the string, which
is always enough since each step consumes at least one character. -/
def replaceSubAux (pat : Str) : Nat → Str → Str
  | _, [] => []
  | 0, s => s
  | n + 1, c :: t =>
    if leadsWith pat (c :: t) then replaceSubAux pat n (t.drop (pat.length - 1))
    else c :: replaceSubAux pat n t

/-- Python `s.replace(pat, '')` for a non-empty pattern (source line 61 uses
the fixed non-empty pattern `"BLOCK OF "`; the empty-pattern case of Python
`replace` never arises). -/
def replaceSub (pat : Str) (s : Str) : Str :=
  match pat with
  | [] => s
  | _ :: _ => replaceSubAux pat s.length s

def blockOf : Str := "BLOCK OF ".data

/-- Source line 53: `str(address).upper().strip()`. -/
def normAddr (s : Str) : Str := pyStrip (pyUpper s)

/-- Source line 56: `'&' in address or ' AND ' in address or '/' in address`. -/
def isInterAddr (a : Str) : Bool :=
  containsSub ['&'] a || containsSub " AND ".data a || containsSub ['/'] a

/-- Source lines 60-61: strip a leading house number, then remove every
occurrence of `"BLOCK OF "`. -/
def cleanStreet (a : Str) : Str := replaceSub blockOf (stripLeadingNum a)

/-- Source lines 49-62: the classification loop.  `none` models a null
dropped by `dropna()`; the result is `(street_names, intersections)` in
loop order. -/
def collect : List (Option Str) → List Str × List Str
  | [] => ([], [])
  | none :: rest => collect rest
  | some a :: rest =>
    let ad := normAddr a
    let r := collect rest
    if isInterAddr ad then (r.1, ad :: r.2) else (cleanStreet ad :: r.1, r.2)

def streetNames (l : List (Option Str)) : List Str := (collect l).1

def interNames (l : List (Option Str)) : List Str := (collect l).2

/-- Worker for `counterItems`; the `Nat` argument is fuel (structural
recursion), always called with at least the length of the list. -/
def counterAux : Nat → List Str → List (Str × Nat)
  | _, [] => []
  | 0, _ => []
  | n + 1, k :: t => (k, t.count k + 1) :: counterAux n (t.filter (fun x => x ≠ k))

/-- `collections.Counter` of a list: key/count pairs, keys in first-seen
order, each count the number of occurrences in the whole list. -/
def counterItems (l : List Str) : List (Str × Nat) := counterAux l.length l

/-- Comparison used by `most_common`: count descending. -/
def cntGE (a b : Str × Nat) : Prop := b.2 ≤ a.2

instance : DecidableRel cntGE := fun a b => inferInstanceAs (Decidable (b.2 ≤ a.2))

instance : IsTotal (Str × Nat) cntGE := ⟨fun a b => Nat.le_total b.2 a.2⟩

instance : IsTrans (Str × Nat) cntGE := ⟨fun _ _ _ h h' => Nat.le_trans h' h⟩

/-- `Counter(l).most_common(n)`: stable sort of the counter items by count
descending, first `n` entries (`heapq.nlargest` is stable in this sense). -/
def mostCommon (n : Nat) (l : List Str) : List (Str × Nat) :=
  (List.insertionSort cntGE (counterItems l)).take n

/-- Source line 65: `Counter(street_names).most_common(10)`. -/
def topStreets (l : List (Option Str)) : List (Str × Nat) :=
  mostCommon 10 (streetNames l)

/-- Source line 68: `Counter(intersections).most_common(10)`. -/
def rawIntersections (l : List (Option Str)) : List (Str × Nat) :=
  mostCommon 10 (interNames l)

/-- Source line 69: keep only entries with `count > 1`. -/
def validIntersections (l : List (Option Str)) : List (Str × Nat) :=
  (rawIntersections l).filter (fun e => decide (1 < e.2))

/-- The whole aggregation: ranked streets and ranked intersections. -/
def aggregate (l : List (Option Str)) : List (Str × Nat) × List (Str × Nat) :=
  (topStreets l, validIntersections l)

end Potholes

namespace Potholes

/-! ### Substring characterization -/

theorem leadsWith_iff (p s : Str) : leadsWith p s = true ↔ ∃ t, s = p ++ t := by
  induction p generalizing s with
  | nil => simp [leadsWith]
  | cons a as ih =>
    cases s with
    | nil => simp [leadsWith]
    | cons c cs =>
      simp only [leadsWith, Bool.and_eq_true, beq_iff_eq, ih, List.cons_append]
      constructor
      · rintro ⟨rfl, t, rfl⟩
        exact ⟨t, rfl⟩
      · rintro ⟨t, h⟩
        injection h with h1 h2
        exact ⟨h1.symm, t, h2⟩

theorem containsSub_iff (p s : Str) :
    containsSub p s = true ↔ ∃ u v, s = u ++ p ++ v := by
  induction s with
  | nil =>
    show leadsWith p [] = true ↔ _
    rw [leadsWith_iff]
    constructor
    · rintro ⟨t, ht⟩
      obtain ⟨h1, h2⟩ := (List.append_eq_nil).mp ht.symm
      exact ⟨[], [], by simp [h1]⟩
    · rintro ⟨u, v, huv⟩
      obtain ⟨h1, h2⟩ := (List.append_eq_nil).mp huv.symm
      obtain ⟨h3, h4⟩ := (List.append_eq_nil).mp h1
      exact ⟨[], by simp [h4]⟩
  | cons c cs ih =>
    simp only [containsSub, Bool.or_eq_true, leadsWith_iff, ih]
    constructor
    · rintro (⟨t, ht⟩ | ⟨u, v, huv⟩)
      · exact ⟨[], t, by simp [ht]⟩
      · exact ⟨c :: u, v, by simp [huv]⟩
    · rintro ⟨u, v, huv⟩
      cases u with
      | nil => exact Or.inl ⟨v, by simpa using huv⟩
      | cons x xs =>
        injection huv with h1 h2
        exact Or.inr ⟨xs, v, h2⟩

theorem containsSub_single (c : Char) (s : Str) :
    containsSub [c] s = true ↔ c ∈ s := by
  rw [containsSub_iff]
  constructor
  · rintro ⟨u, v, rfl⟩
    simp
  · intro h
    obtain ⟨u, v, rfl⟩ := List.append_of_mem h
    exact ⟨u, v, by simp⟩

/-! ### Counter lemmas -/

theorem mem_counterAux (n : Nat) (l : List Str) (e : Str × Nat) (hn : l.length ≤ n) :
    e ∈ counterAux n l ↔ e.1 ∈ l ∧ e.2 = l.count e.1 := by
  induction n generalizing l with
  | zero =>
    have hl : l = [] := List.length_eq_zero.mp (Nat.le_zero.mp hn)
    subst hl
    simp [counterAux]
  | succ n ih =>
    cases l with
    | nil => simp [counterAux]
    | cons k t =>
    have hn' : t.length ≤ n := by
      simp only [List.length_cons] at hn
      omega
    have hf : (t.filter (fun x => x ≠ k)).length ≤ n :=
      le_trans (List.length_filter_le _ _) hn'
    simp only [counterAux, List.mem_cons, ih _ hf]
    constructor
    · rintro (rfl | ⟨h1, h2⟩)
      · exact ⟨Or.inl rfl, by simp⟩
      · obtain ⟨hmem, hpred⟩ := List.mem_filter.mp h1
        have hne : e.1 ≠ k := by simpa using hpred
        refine ⟨Or.inr hmem, ?_⟩
        rw [h2, List.count_filter (by simpa using hne), List.count_cons_of_ne hne]
    · rintro ⟨h1, h2⟩
      by_cases hek : e.1 = k
      · refine Or.inl ?_
        have : e.2 = t.count k + 1 := by
          rw [h2, hek, List.count_cons_self]
        calc e = (e.1, e.2) := rfl
          _ = (k, t.count k + 1) := by rw [hek, this]
      · refine Or.inr ⟨List.mem_filter.mpr ⟨h1.resolve_left hek, by simpa using hek⟩, ?_⟩
        rw [h2, List.count_filter (by simpa using hek), List.count_cons_of_ne hek]

theorem mem_counterItems (l : List Str) (e : Str × Nat) :
    e ∈ counterItems l ↔ e.1 ∈ l ∧ e.2 = l.count e.1 :=
  mem_counterAux l.length l e le_rfl

end Potholes

namespace Potholes

theorem count_add_filter_length (k : Str) (t : List Str) :
    t.count k + (t.filter (fun x => x ≠ k)).length = t.length := by
  induction t with
  | nil => simp
  | cons a t ih =>
    by_cases h : a = k
    · subst h
      simp only [List.count_cons_self, List.filter_cons]
      rw [if_neg (by simp)]
      simp only [List.length_cons]
      omega
    · have hb : (a == k) = false := beq_false_of_ne h
      simp only [List.count_cons, hb, Bool.false_eq_true, if_false, List.filter_cons]
      have hcond : decide (a ≠ k) = true := by simpa using h
      rw [if_pos hcond]
      simp only [List.length_cons]
      omega

end Potholes


namespace Potholes

theorem sum_counterAux (n : Nat) (l : List Str) (hn : l.length ≤ n) :
    ((counterAux n l).map Prod.snd).sum = l.length := by
  induction n generalizing l with
  | zero =>
    have hl : l = [] := List.length_eq_zero.mp (Nat.le_zero.mp hn)
    subst hl
    simp [counterAux]
  | succ n ih =>
    cases l with
    | nil => simp [counterAux]
    | cons k t =>
    have hn' : t.length ≤ n := by
      simp only [List.length_cons] at hn
      omega
    have hf : (t.filter (fun x => x ≠ k)).length ≤ n :=
      le_trans (List.length_filter_le _ _) hn'
    simp only [counterAux, List.map_cons, List.sum_cons, ih _ hf]
    have := count_add_filter_length k t
    simp only [List.length_cons]
    omega

theorem sum_counterItems (l : List Str) :
    ((counterItems l).map Prod.snd).sum = l.length :=
  sum_counterAux l.length l le_rfl

theorem mem_mostCommon (n : Nat) (l : List Str) (e : Str × Nat)
    (h : e ∈ mostCommon n l) : e.1 ∈ l ∧ e.2 = l.count e.1 := by
  have h1 : e ∈ List.insertionSort cntGE (counterItems l) := List.mem_of_mem_take h
  have h2 : e ∈ counterItems l := (List.mem_insertionSort cntGE).mp h1
  exact (mem_counterItems l e).mp h2

/-! ### First-seen order -/

/-- Index of the first occurrence of `x` (length of the list when absent). -/
def firstIdx {α : Type} [DecidableEq α] (x : α) : List α → Nat
  | [] => 0
  | a :: t => if a = x then 0 else firstIdx x t + 1

theorem firstIdx_lt_of_filter {α : Type} [DecidableEq α] (p : α → Bool) (t : List α)
    (x y : α) (hx : p x = true) (hy : p y = true)
    (h : firstIdx x (t.filter p) < firstIdx y (t.filter p)) :
    firstIdx x t < firstIdx y t := by
  induction t with
  | nil => simp [firstIdx] at h
  | cons a t ih =>
    have hxy : x ≠ y := by
      rintro rfl
      exact absurd h (lt_irrefl _)
    by_cases hax : a = x
    · subst hax
      have e1 : firstIdx a (a :: t) = 0 := by simp [firstIdx]
      have hay : ¬ a = y := hxy
      have e2 : firstIdx y (a :: t) = firstIdx y t + 1 := by simp [firstIdx, hay]
      rw [e1, e2]
      exact Nat.succ_pos _
    · by_cases hay : a = y
      · subst hay
        rw [List.filter_cons, if_pos hy] at h
        have e0 : firstIdx a (a :: t.filter p) = 0 := by simp [firstIdx]
        rw [e0] at h
        exact absurd h (Nat.not_lt_zero _)
      · by_cases hpa : p a = true
        · rw [List.filter_cons, if_pos hpa] at h
          have e1 : firstIdx x (a :: t.filter p) = firstIdx x (t.filter p) + 1 := by
            simp [firstIdx, hax]
          have e2 : firstIdx y (a :: t.filter p) = firstIdx y (t.filter p) + 1 := by
            simp [firstIdx, hay]
          rw [e1, e2] at h
          have e3 : firstIdx x (a :: t) = firstIdx x t + 1 := by simp [firstIdx, hax]
          have e4 : firstIdx y (a :: t) = firstIdx y t + 1 := by simp [firstIdx, hay]
          rw [e3, e4]
          exact Nat.succ_lt_succ (ih (Nat.lt_of_succ_lt_succ h))
        · rw [List.filter_cons, if_neg hpa] at h
          have e3 : firstIdx x (a :: t) = firstIdx x t + 1 := by simp [firstIdx, hax]
          have e4 : firstIdx y (a :: t) = firstIdx y t + 1 := by simp [firstIdx, hay]
          rw [e3, e4]
          exact Nat.succ_lt_succ (ih h)

theorem counterAux_pair (n : Nat) (l : List Str) (x y : Str × Nat)
    (hn : l.length ≤ n) (h : [x, y].Sublist (counterAux n l)) :
    firstIdx x.1 l < firstIdx y.1 l := by
  induction n generalizing l x y with
  | zero =>
    have hl : l = [] := List.length_eq_zero.mp (Nat.le_zero.mp hn)
    subst hl
    exact absurd (List.sublist_nil.mp h) (by simp)
  | succ n ih =>
    cases l with
    | nil => exact absurd (List.sublist_nil.mp h) (by simp)
    | cons k t =>
    have hn' : t.length ≤ n := by
      simp only [List.length_cons] at hn
      omega
    have hf : (t.filter (fun z => z ≠ k)).length ≤ n :=
      le_trans (List.length_filter_le _ _) hn'
    rw [counterAux] at h
    cases h with
    | cons _ h' =>
      have hx' : x ∈ counterAux n (t.filter (fun z => z ≠ k)) := h'.subset (by simp)
      have hy' : y ∈ counterAux n (t.filter (fun z => z ≠ k)) := h'.subset (by simp)
      have hxf := (mem_counterAux n _ x hf).mp hx'
      have hyf := (mem_counterAux n _ y hf).mp hy'
      have hxk : x.1 ≠ k := by simpa using (List.mem_filter.mp hxf.1).2
      have hyk : y.1 ≠ k := by simpa using (List.mem_filter.mp hyf.1).2
      have h1 := ih _ x y hf h'
      have h2 := firstIdx_lt_of_filter (fun z => decide (z ≠ k)) t x.1 y.1
        (by simpa using hxk) (by simpa using hyk) h1
      have hkx : ¬ k = x.1 := fun hh => hxk hh.symm
      have hky : ¬ k = y.1 := fun hh => hyk hh.symm
      have e1 : firstIdx x.1 (k :: t) = firstIdx x.1 t + 1 := by simp [firstIdx, hkx]
      have e2 : firstIdx y.1 (k :: t) = firstIdx y.1 t + 1 := by simp [firstIdx, hky]
      rw [e1, e2]
      exact Nat.succ_lt_succ h2
    | cons₂ _ h' =>
      have hy' : y ∈ counterAux n (t.filter (fun z => z ≠ k)) := h'.subset (by simp)
      have hyf := (mem_counterAux n _ y hf).mp hy'
      have hyk : y.1 ≠ k := by simpa using (List.mem_filter.mp hyf.1).2
      have hky : ¬ k = y.1 := fun hh => hyk hh.symm
      have e1 : firstIdx (k, t.count k + 1).1 (k :: t) = 0 := by simp [firstIdx]
      have e2 : firstIdx y.1 (k :: t) = firstIdx y.1 t + 1 := by simp [firstIdx, hky]
      rw [e1, e2]
      exact Nat.succ_pos _

theorem counterItems_pair (l : List Str) (x y : Str × Nat)
    (h : [x, y].Sublist (counterItems l)) :
    firstIdx x.1 l < firstIdx y.1 l :=
  counterAux_pair l.length l x y le_rfl h

end Potholes

namespace Potholes

/-! ### Stability of the ranking sort on count slices -/

theorem filter_orderedInsert (c : Nat) (a : Str × Nat) (L : List (Str × Nat)) :
    (List.orderedInsert cntGE a L).filter (fun e => e.2 == c) =
      if a.2 = c then a :: L.filter (fun e => e.2 == c)
      else L.filter (fun e => e.2 == c) := by
  induction L with
  | nil =>
    simp only [List.orderedInsert, List.filter_cons, List.filter_nil]
    by_cases hac : a.2 = c
    · rw [if_pos (by simpa using hac), if_pos hac]
    · rw [if_neg (by simpa using hac), if_neg hac]
  | cons b t ih =>
    simp only [List.orderedInsert]
    by_cases hr : cntGE a b
    · rw [if_pos hr]
      by_cases hac : a.2 = c
      · rw [List.filter_cons, if_pos (by simpa using hac), if_pos hac]
      · rw [List.filter_cons, if_neg (by simpa using hac), if_neg hac]
    · rw [if_neg hr]
      have hba : a.2 < b.2 := Nat.lt_of_not_le hr
      by_cases hac : a.2 = c
      · have hbc : ¬ b.2 = c := by omega
        simp only [List.filter_cons, ih]
        simp [hac, hbc]
      · by_cases hbc : b.2 = c
        · simp only [List.filter_cons, ih]
          simp [hac, hbc]
        · simp only [List.filter_cons, ih]
          simp [hac, hbc]

theorem filter_insertionSort (c : Nat) (L : List (Str × Nat)) :
    (List.insertionSort cntGE L).filter (fun e => e.2 == c) =
      L.filter (fun e => e.2 == c) := by
  induction L with
  | nil => rfl
  | cons a t ih =>
    simp only [List.insertionSort]
    rw [filter_orderedInsert c a _, List.filter_cons]
    by_cases hac : a.2 = c
    · rw [if_pos hac, ih, if_pos (by simpa using hac)]
    · rw [if_neg hac, ih, if_neg (by simpa using hac)]

/-! ### Conservation of the classification -/

theorem collect_length (l : List (Option Str)) :
    (collect l).1.length + (collect l).2.length =
      l.countP (fun o => o.isSome) := by
  induction l with
  | nil => simp [collect]
  | cons o rest ih =>
    cases o with
    | none =>
      simp only [collect, List.countP_cons]
      simpa using ih
    | some a =>
      simp only [collect, List.countP_cons]
      by_cases h : isInterAddr (normAddr a) = true
      · rw [if_pos h]
        simp only [List.length_cons, Option.isSome_some, if_true]
        omega
      · rw [if_neg h]
        simp only [List.length_cons, Option.isSome_some, if_true]
        omega

end Potholes

namespace Potholes

/-! ### Character facts (ASCII) -/

theorem pyIsSpace_cases (c : Char) (h : pyIsSpace c = true) :
    c = ' ' ∨ c = '\t' ∨ c = '\n' ∨ c = '\x0d' ∨ c = '\x0b' ∨ c = '\x0c' := by
  have h' := h
  simp only [pyIsSpace, Bool.or_eq_true, decide_eq_true_eq] at h'
  tauto

theorem toUpper_of_space (c : Char) (h : pyIsSpace c = true) :
    Char.toUpper c = c := by
  rcases pyIsSpace_cases c h with rfl | rfl | rfl | rfl | rfl | rfl <;> decide

theorem isDigit_of_space (c : Char) (h : pyIsSpace c = true) :
    c.isDigit = false := by
  rcases pyIsSpace_cases c h with rfl | rfl | rfl | rfl | rfl | rfl <;> decide

theorem toUpper_of_digit (c : Char) (h : c.isDigit = true) :
    Char.toUpper c = c := by
  simp only [Char.isDigit, Bool.and_eq_true, decide_eq_true_eq] at h
  have h57 : c.toNat ≤ 57 := UInt32.toNat_le_of_le (by decide) h.2
  simp only [Char.toUpper]
  rw [if_neg]
  rintro ⟨h97, _⟩
  omega

/-! ### takeWhile/dropWhile over decomposed inputs -/

/-- `true` when the list is empty or its head fails `p`. -/
def headFails {α : Type} (p : α → Bool) : List α → Bool
  | [] => true
  | c :: _ => !p c

theorem dropWhile_append_all {α : Type} (p : α → Bool) (l₁ l₂ : List α)
    (h : ∀ x ∈ l₁, p x = true) :
    (l₁ ++ l₂).dropWhile p = l₂.dropWhile p := by
  induction l₁ with
  | nil => simp
  | cons a t ih =>
    rw [List.cons_append, List.dropWhile_cons, if_pos (h a (by simp))]
    exact ih (fun x hx => h x (by simp [hx]))

theorem dropWhile_head_fail {α : Type} (p : α → Bool) (l : List α)
    (h : headFails p l = true) : l.dropWhile p = l := by
  cases l with
  | nil => rfl
  | cons c t =>
    have hc : ¬ p c = true := by simpa [headFails] using h
    rw [List.dropWhile_cons, if_neg hc]

theorem takeWhile_append_all {α : Type} (p : α → Bool) (l₁ l₂ : List α)
    (h : ∀ x ∈ l₁, p x = true) (h2 : headFails p l₂ = true) :
    (l₁ ++ l₂).takeWhile p = l₁ := by
  induction l₁ with
  | nil =>
    cases l₂ with
    | nil => rfl
    | cons c t =>
      have hc : ¬ p c = true := by simpa [headFails] using h2
      rw [List.nil_append, List.takeWhile_cons, if_neg hc]
  | cons a t ih =>
    rw [List.cons_append, List.takeWhile_cons, if_pos (h a (by simp))]
    rw [ih (fun x hx => h x (by simp [hx]))]

theorem headFails_append {α : Type} (p : α → Bool) (l₁ l₂ : List α)
    (h : headFails p l₁ = true) (hne : l₁ ≠ []) :
    headFails p (l₁ ++ l₂) = true := by
  cases l₁ with
  | nil => exact absurd rfl hne
  | cons c t => simpa [headFails] using h

/-! ### Behaviour of the house-number strip and of `strip()` -/

theorem stripLeadingNum_spec (d w r : Str)
    (hd : d ≠ []) (hda : ∀ c ∈ d, c.isDigit = true)
    (hw : w ≠ []) (hwa : ∀ c ∈ w, pyIsSpace c = true)
    (hr : headFails pyIsSpace r = true) :
    stripLeadingNum (d ++ w ++ r) = r := by
  have hwd : headFails Char.isDigit w = true := by
    cases w with
    | nil => exact absurd rfl hw
    | cons c t =>
      simp [headFails, isDigit_of_space c (hwa c (by simp))]
  have h2 : (d ++ w ++ r).dropWhile Char.isDigit = w ++ r := by
    rw [List.append_assoc, dropWhile_append_all _ d _ hda,
      dropWhile_head_fail _ _ (headFails_append _ w r hwd hw)]
  have h1 : (d ++ w ++ r).takeWhile Char.isDigit ≠ [] := by
    obtain ⟨c, d', rfl⟩ : ∃ c d', d = c :: d' := by
      cases d with
      | nil => exact absurd rfl hd
      | cons c d' => exact ⟨c, d', rfl⟩
    rw [List.cons_append, List.cons_append, List.takeWhile_cons,
      if_pos (hda c (by simp))]
    exact List.cons_ne_nil _ _
  have h3 : (w ++ r).takeWhile pyIsSpace = w := takeWhile_append_all _ w r hwa hr
  have h4 : (w ++ r).dropWhile pyIsSpace = r := by
    rw [dropWhile_append_all _ w _ hwa, dropWhile_head_fail _ _ hr]
  unfold stripLeadingNum
  rw [if_neg h1]
  rw [h2, h3, h4, if_neg hw]

theorem pyStrip_spec (a mid z : Str)
    (ha : ∀ c ∈ a, pyIsSpace c = true) (hz : ∀ c ∈ z, pyIsSpace c = true)
    (h1 : headFails pyIsSpace mid = true)
    (h2 : headFails pyIsSpace mid.reverse = true)
    (hm : mid ≠ []) :
    pyStrip (a ++ mid ++ z) = mid := by
  unfold pyStrip
  rw [List.append_assoc, dropWhile_append_all _ a _ ha,
    dropWhile_head_fail _ _ (headFails_append _ mid z h1 hm),
    List.reverse_append,
    dropWhile_append_all _ z.reverse _ (fun c hc => hz c (List.mem_reverse.mp hc)),
    dropWhile_head_fail _ _ h2, List.reverse_reverse]

end Potholes

namespace Potholes

/-! ### Behaviour of `replace` -/

theorem replaceSubAux_not_contains (pat : Str) :
    ∀ n s, s.length ≤ n → containsSub pat s = false → replaceSubAux pat n s = s := by
  intro n
  induction n with
  | zero =>
    intro s hs _
    have hl : s = [] := List.length_eq_zero.mp (Nat.le_zero.mp hs)
    subst hl
    rfl
  | succ n ih =>
    intro s hs hc
    cases s with
    | nil => rfl
    | cons c t =>
      rw [containsSub] at hc
      have h1 : leadsWith pat (c :: t) = false := by
        cases h' : leadsWith pat (c :: t) with
        | false => rfl
        | true => simp [h'] at hc
      have h2 : containsSub pat t = false := by
        cases h' : containsSub pat t with
        | false => rfl
        | true => simp [h'] at hc
      rw [replaceSubAux, if_neg (by simp [h1])]
      have hn' : t.length ≤ n := by
        simp only [List.length_cons] at hs
        omega
      rw [ih t hn' h2]

theorem replaceSub_not_contains (pat s : Str) (h : containsSub pat s = false) :
    replaceSub pat s = s := by
  cases pat with
  | nil => rfl
  | cons p ps =>
    exact replaceSubAux_not_contains (p :: ps) s.length s le_rfl h

theorem replaceSubAux_irrel (pat : Str) :
    ∀ n m s, s.length ≤ n → s.length ≤ m →
      replaceSubAux pat n s = replaceSubAux pat m s := by
  intro n
  induction n with
  | zero =>
    intro m s hs _
    have hl : s = [] := List.length_eq_zero.mp (Nat.le_zero.mp hs)
    subst hl
    cases m <;> rfl
  | succ n ih =>
    intro m s hs hm
    cases s with
    | nil => cases m <;> rfl
    | cons c t =>
      cases m with
      | zero => simp at hm
      | succ m =>
        have hn' : t.length ≤ n := by
          simp only [List.length_cons] at hs
          omega
        have hm' : t.length ≤ m := by
          simp only [List.length_cons] at hm
          omega
        rw [replaceSubAux, replaceSubAux]
        have hdl : (t.drop (pat.length - 1)).length ≤ t.length := by
          rw [List.length_drop]
          omega
        by_cases hl : leadsWith pat (c :: t) = true
        · rw [if_pos hl, if_pos hl]
          exact ih m _ (le_trans hdl hn') (le_trans hdl hm')
        · rw [if_neg hl, if_neg hl, ih m t hn' hm']

theorem replaceSub_head (p : Char) (ps v : Str) :
    replaceSub (p :: ps) ((p :: ps) ++ v) = replaceSub (p :: ps) v := by
  show replaceSubAux (p :: ps) ((p :: ps) ++ v).length ((p :: ps) ++ v)
    = replaceSubAux (p :: ps) v.length v
  have hlen : ((p :: ps) ++ v).length = (ps ++ v).length + 1 := by simp
  rw [hlen, List.cons_append, replaceSubAux,
    if_pos ((leadsWith_iff _ _).mpr ⟨v, by simp⟩)]
  have hdrop : (ps ++ v).drop ((p :: ps).length - 1) = v := by
    simp only [List.length_cons, Nat.add_sub_cancel]
    exact List.drop_left ps v
  rw [hdrop]
  exact replaceSubAux_irrel _ _ _ _ (by simp) le_rfl

/-! ### `upper()` fixes digits and whitespace -/

theorem not_space_of_digit (c : Char) (h : c.isDigit = true) :
    pyIsSpace c = false := by
  cases h' : pyIsSpace c with
  | false => rfl
  | true => rw [isDigit_of_space c h'] at h; cases h

theorem pyUpper_of_all_space (w : Str) (h : ∀ c ∈ w, pyIsSpace c = true) :
    pyUpper w = w := by
  unfold pyUpper
  induction w with
  | nil => rfl
  | cons c t ih =>
    rw [List.map_cons, toUpper_of_space c (h c (by simp)),
      ih (fun x hx => h x (by simp [hx]))]

theorem pyUpper_of_all_digit (d : Str) (h : ∀ c ∈ d, c.isDigit = true) :
    pyUpper d = d := by
  unfold pyUpper
  induction d with
  | nil => rfl
  | cons c t ih =>
    rw [List.map_cons, toUpper_of_digit c (h c (by simp)),
      ih (fun x hx => h x (by simp [hx]))]

end Potholes

namespace Potholes

theorem pyUpper_append (x y : Str) : pyUpper (x ++ y) = pyUpper x ++ pyUpper y :=
  List.map_append _ x y

/-- Normalizing `a ++ d ++ u ++ s ++ z` (surrounding whitespace `a`,`z`,
house number `d`, separating whitespace `u`, street part `s`) yields the
street key `replaceSub blockOf (pyUpper s)`. -/
theorem streetKey_decomp (a d u s z : Str)
    (ha : ∀ c ∈ a, pyIsSpace c = true) (hz : ∀ c ∈ z, pyIsSpace c = true)
    (hd : ∀ c ∈ d, c.isDigit = true) (hdn : d ≠ [])
    (hu : ∀ c ∈ u, pyIsSpace c = true) (hun : u ≠ [])
    (hsn : s ≠ [])
    (hh1 : headFails pyIsSpace (pyUpper s) = true)
    (hh3 : headFails pyIsSpace (pyUpper s).reverse = true) :
    cleanStreet (normAddr (a ++ d ++ u ++ s ++ z)) = replaceSub blockOf (pyUpper s) := by
  have hm : pyUpper (a ++ d ++ u ++ s ++ z) = a ++ (d ++ u ++ pyUpper s) ++ z := by
    rw [pyUpper_append, pyUpper_append, pyUpper_append, pyUpper_append,
      pyUpper_of_all_space a ha, pyUpper_of_all_digit d hd,
      pyUpper_of_all_space u hu, pyUpper_of_all_space z hz]
    simp [List.append_assoc]
  have hps : pyUpper s ≠ [] := by
    cases s with
    | nil => exact absurd rfl hsn
    | cons c t => simp [pyUpper]
  have hpr : (pyUpper s).reverse ≠ [] := by simpa using hps
  obtain ⟨c, d', hd'⟩ : ∃ c d', d = c :: d' := by
    cases d with
    | nil => exact absurd rfl hdn
    | cons c d' => exact ⟨c, d', rfl⟩
  have hmid1 : headFails pyIsSpace (d ++ u ++ pyUpper s) = true := by
    subst hd'
    simp [headFails, not_space_of_digit c (hd c (by simp))]
  have hmid3 : headFails pyIsSpace (d ++ u ++ pyUpper s).reverse = true := by
    rw [List.reverse_append]
    exact headFails_append _ _ _ hh3 hpr
  have hmidn : d ++ u ++ pyUpper s ≠ [] := by
    subst hd'
    simp
  have hnorm : normAddr (a ++ d ++ u ++ s ++ z) = d ++ u ++ pyUpper s := by
    unfold normAddr
    rw [hm]
    exact pyStrip_spec a _ z ha hz hmid1 hmid3 hmidn
  unfold cleanStreet
  rw [hnorm, stripLeadingNum_spec d u (pyUpper s) hdn hd hun hu hh1]

theorem mostCommon_pair (k : Str) : mostCommon 10 [k, k] = [(k, 2)] := by
  have h1 : counterItems [k, k] = [(k, 2)] := by
    simp [counterItems, counterAux]
  show (List.insertionSort cntGE (counterItems [k, k])).take 10 = [(k, 2)]
  rw [h1]
  rfl

end Potholes

namespace Potholes

/-! ### Claims -/

/-- Claim C9: aggregating the empty input sequence returns two empty lists:
the street ranking and the intersection ranking are both empty. -/
theorem claim_C9 : aggregate [] = ([], []) := rfl

/-- Claim C1: after upper-casing and trimming, an input is classified as an
intersection exactly when it contains `'&'`, the substring `" AND "`, or
`'/'`; in that case the normalized string itself is the group key pushed to
the intersection list, otherwise the cleaned string goes to the street
list. -/
theorem claim_C1 (s : Str) (l : List (Option Str)) :
    (isInterAddr (normAddr s) = true ↔
      '&' ∈ normAddr s
      ∨ (∃ u v, normAddr s = u ++ " AND ".data ++ v)
      ∨ '/' ∈ normAddr s)
    ∧ collect (some s :: l) =
        (if isInterAddr (normAddr s) then ((collect l).1, normAddr s :: (collect l).2)
          else (cleanStreet (normAddr s) :: (collect l).1, (collect l).2)) := by
  constructor
  · have h1 := containsSub_single '&' (normAddr s)
    have h2 := containsSub_iff " AND ".data (normAddr s)
    have h3 := containsSub_single '/' (normAddr s)
    rw [show isInterAddr (normAddr s)
        = (containsSub ['&'] (normAddr s) || containsSub " AND ".data (normAddr s)
            || containsSub ['/'] (normAddr s)) from rfl]
    simp only [Bool.or_eq_true, h1, h2, h3, or_assoc]
  · rfl

/-- Witness for C1 at the concrete input `"A & B"`. -/
theorem claim_C1_witness :
    isInterAddr (normAddr "A & B".data) = true ↔
      '&' ∈ normAddr "A & B".data
      ∨ (∃ u v, normAddr "A & B".data = u ++ " AND ".data ++ v)
      ∨ '/' ∈ normAddr "A & B".data :=
  (claim_C1 "A & B".data []).1

/-- Claim C5 is refuted on the code: an empty (non-null) address string is
not skipped; it is counted as a street with the empty group key. -/
theorem claim_C5_cex :
    topStreets [some []] = [(([] : Str), 1)]
    ∧ topStreets [some []] ≠ ([] : List (Str × Nat)) := by
  constructor
  · decide
  · decide

/-- Claim C5 (amended): null address values are skipped entirely, but an
empty string is classified as a street and counted under the empty group
key; the aggregation is total and never fails. -/
theorem claim_C5 (l : List (Option Str)) :
    collect (none :: l) = collect l
    ∧ collect (some [] :: l) = ([] :: (collect l).1, (collect l).2) :=
  ⟨rfl, rfl⟩

/-- Witness for the amended C5 at a concrete list. -/
theorem claim_C5_witness : collect [none] = collect [] :=
  (claim_C5 []).1

/-- Claim C8: `"&"` and `" AND "` are not unified: the two normalized
inputs are both intersections, their group keys differ, and aggregating two
occurrences of each keeps two distinct entries with separate counts. -/
theorem claim_C8 :
    normAddr "MAIN ST & 5TH ST".data ≠ normAddr "MAIN ST AND 5TH ST".data
    ∧ isInterAddr (normAddr "MAIN ST & 5TH ST".data) = true
    ∧ isInterAddr (normAddr "MAIN ST AND 5TH ST".data) = true
    ∧ validIntersections
        [some "MAIN ST & 5TH ST".data, some "MAIN ST & 5TH ST".data,
          some "MAIN ST AND 5TH ST".data, some "MAIN ST AND 5TH ST".data]
      = [("MAIN ST & 5TH ST".data, 2), ("MAIN ST AND 5TH ST".data, 2)] := by
  refine ⟨by decide, by decide, by decide, by decide⟩

/-- Claim C10: every non-null input is classified into exactly one
category: the counter totals of both categories (before cutoff and filter)
sum to the number of non-null entries. -/
theorem claim_C10 (l : List (Option Str)) :
    ((counterItems (streetNames l)).map Prod.snd).sum
      + ((counterItems (interNames l)).map Prod.snd).sum
      = l.countP (fun o => o.isSome) := by
  rw [sum_counterItems, sum_counterItems]
  exact collect_length l

/-- Witness for C10 at a concrete list. -/
theorem claim_C10_witness :
    ((counterItems (streetNames [some "A".data, none])).map Prod.snd).sum
      + ((counterItems (interNames [some "A".data, none])).map Prod.snd).sum
      = List.countP (fun o => o.isSome) [some "A".data, none] :=
  claim_C10 [some "A".data, none]

/-- Claim C7: every count in the street ranking is at least 1 and every
count in the intersection ranking is at least 2. -/
theorem claim_C7 (l : List (Option Str)) :
    (∀ e ∈ topStreets l, 1 ≤ e.2) ∧ (∀ e ∈ validIntersections l, 2 ≤ e.2) := by
  constructor
  · intro e he
    have h := mem_mostCommon 10 (streetNames l) e he
    rw [h.2]
    exact List.count_pos_iff.mpr h.1
  · intro e he
    have he' : e ∈ (rawIntersections l).filter (fun e => decide (1 < e.2)) := he
    have h2 := (List.mem_filter.mp he').2
    have h3 : 1 < e.2 := of_decide_eq_true h2
    omega

/-- Witness for C7 at a concrete list. -/
theorem claim_C7_witness : 1 ≤ (("ELM ST".data, 1) : Str × Nat).2 :=
  (claim_C7 [some "ELM ST".data]).1 ("ELM ST".data, 1) (by decide)

/-- Claim C3: the intersection ranking is the top-10 candidates filtered to
counts above 1: a key occurring exactly once never appears, and a key
occurring exactly twice that is among the candidates appears with count
2. -/
theorem claim_C3 (l : List (Option Str)) :
    validIntersections l = (rawIntersections l).filter (fun e => decide (1 < e.2))
    ∧ (∀ k c, (interNames l).count k = 1 → (k, c) ∉ validIntersections l)
    ∧ (∀ k c, (k, c) ∈ rawIntersections l → (interNames l).count k = 2 →
        (k, 2) ∈ validIntersections l) := by
  refine ⟨rfl, ?_, ?_⟩
  · intro k c h1 h2
    have h2' : (k, c) ∈ (rawIntersections l).filter (fun e => decide (1 < e.2)) := h2
    obtain ⟨h3, h4⟩ := List.mem_filter.mp h2'
    have h5 := mem_mostCommon 10 (interNames l) (k, c) h3
    have h6 : c = 1 := by simpa [h1] using h5.2
    rw [h6] at h4
    simp at h4
  · intro k c h1 h2
    have h5 := mem_mostCommon 10 (interNames l) (k, c) h1
    have h6 : c = 2 := by simpa [h2] using h5.2
    subst h6
    show (k, 2) ∈ (rawIntersections l).filter (fun e => decide (1 < e.2))
    exact List.mem_filter.mpr ⟨h1, rfl⟩

/-- Witness for C3 at a concrete list: a single-occurrence intersection is
excluded. -/
theorem claim_C3_witness :
    ("X & Y".data, 1) ∉ validIntersections [some "X & Y".data] :=
  (claim_C3 [some "X & Y".data]).2.1 "X & Y".data 1 (by decide)

end Potholes

namespace Potholes

/-- Claim C2: the street group key is produced by first stripping a single
leading run of digits followed by whitespace (the remainder is returned
verbatim, so embedded numbers are untouched; nothing is stripped when the
string does not start with a digit), then removing the literal substring
`"BLOCK OF "` (strings without an occurrence are unchanged, a leading
occurrence is removed and scanning continues); `"123 BLOCK OF MAIN ST"`
normalizes to `"MAIN ST"`. -/
theorem claim_C2 :
    (∀ a : Str, cleanStreet a = replaceSub blockOf (stripLeadingNum a))
    ∧ (∀ d w r : Str, d ≠ [] → (∀ c ∈ d, c.isDigit = true) →
        w ≠ [] → (∀ c ∈ w, pyIsSpace c = true) →
        headFails pyIsSpace r = true →
        stripLeadingNum (d ++ w ++ r) = r)
    ∧ (∀ a : Str, a.takeWhile Char.isDigit = [] → stripLeadingNum a = a)
    ∧ (∀ s : Str, containsSub blockOf s = false → replaceSub blockOf s = s)
    ∧ (∀ v : Str, replaceSub blockOf (blockOf ++ v) = replaceSub blockOf v)
    ∧ cleanStreet (normAddr "123 BLOCK OF MAIN ST".data) = "MAIN ST".data := by
  refine ⟨fun a => rfl, fun d w r hd hda hw hwa hr =>
    stripLeadingNum_spec d w r hd hda hw hwa hr, ?_, ?_, ?_, by decide⟩
  · intro a h
    unfold stripLeadingNum
    rw [if_pos h]
  · exact fun s h => replaceSub_not_contains blockOf s h
  · intro v
    have hB : blockOf = 'B' :: "LOCK OF ".data := rfl
    rw [hB]
    exact replaceSub_head 'B' "LOCK OF ".data v

/-- Witness for C2 at concrete strings. -/
theorem claim_C2_witness :
    stripLeadingNum ("123".data ++ " ".data ++ "BLOCK OF MAIN ST".data)
      = "BLOCK OF MAIN ST".data
    ∧ replaceSub blockOf "MAIN ST".data = "MAIN ST".data :=
  ⟨claim_C2.2.1 "123".data " ".data "BLOCK OF MAIN ST".data
      (by decide) (by decide) (by decide) (by decide) (by decide),
    claim_C2.2.2.2.1 "MAIN ST".data (by decide)⟩

/-- Claim C4: the street ranking has at most 10 entries, is sorted by count
descending, holds keys with the highest counts (any counter entry left out
has a count at most every retained count), and breaks ties between equal
counts by first-seen order of the keys in the street-name list. -/
theorem claim_C4 (l : List (Option Str)) :
    (topStreets l).length ≤ 10
    ∧ (topStreets l).Pairwise cntGE
    ∧ (∀ e ∈ counterItems (streetNames l), e ∉ topStreets l →
        ∀ f ∈ topStreets l, e.2 ≤ f.2)
    ∧ (∀ x y : Str × Nat, [x, y].Sublist (topStreets l) → x.2 = y.2 →
        firstIdx x.1 (streetNames l) < firstIdx y.1 (streetNames l)) := by
  refine ⟨?_, ?_, ?_, ?_⟩
  · exact List.length_take_le 10 _
  · have hs : (List.insertionSort cntGE (counterItems (streetNames l))).Pairwise cntGE :=
      List.sorted_insertionSort cntGE _
    exact List.Pairwise.sublist (List.take_sublist 10 _) hs
  · intro e he hnot f hf
    have heL : e ∈ List.insertionSort cntGE (counterItems (streetNames l)) :=
      (List.mem_insertionSort cntGE).mpr he
    have heTD : e ∈ (List.insertionSort cntGE (counterItems (streetNames l))).take 10
        ++ (List.insertionSort cntGE (counterItems (streetNames l))).drop 10 := by
      rw [List.take_append_drop]
      exact heL
    have heD : e ∈ (List.insertionSort cntGE (counterItems (streetNames l))).drop 10 := by
      rcases List.mem_append.mp heTD with h1 | h2
      · exact absurd h1 hnot
      · exact h2
    have hp : ((List.insertionSort cntGE (counterItems (streetNames l))).take 10
        ++ (List.insertionSort cntGE (counterItems (streetNames l))).drop 10).Pairwise cntGE := by
      rw [List.take_append_drop]
      exact List.sorted_insertionSort cntGE _
    exact (List.pairwise_append.mp hp).2.2 f hf e heD
  · intro x y hsub hxy
    have h1 : [x, y].Sublist (List.insertionSort cntGE (counterItems (streetNames l))) :=
      hsub.trans (List.take_sublist 10 _)
    have hpx : (x.2 == x.2) = true := by simp
    have hpy : (y.2 == x.2) = true := by simp [hxy]
    have hfil : [x, y].filter (fun e => e.2 == x.2) = [x, y] := by
      simp [List.filter_cons, hpx, hpy]
    have h2 : [x, y].Sublist
        ((List.insertionSort cntGE (counterItems (streetNames l))).filter
          (fun e => e.2 == x.2)) := by
      have h3 := h1.filter (fun e => e.2 == x.2)
      rwa [hfil] at h3
    rw [filter_insertionSort x.2 (counterItems (streetNames l))] at h2
    have h4 : [x, y].Sublist (counterItems (streetNames l)) :=
      h2.trans (List.filter_sublist _)
    exact counterItems_pair _ x y h4

/-- Witness for C4 at a concrete list. -/
theorem claim_C4_witness : (topStreets [some "OAK ST".data]).length ≤ 10 :=
  (claim_C4 [some "OAK ST".data]).1

end Potholes

namespace Potholes

/-- Claim C6: two raw inputs that differ only in letter case, surrounding
whitespace and their leading house number (digits `d` plus separating
whitespace `u`, surrounded by whitespace `a`/`z` around a common street
part whose upper-casings agree) are grouped under the same street key, and
that key's count is the combined number of such inputs (2 here). -/
theorem claim_C6
    (a₁ d₁ u₁ s₁ z₁ a₂ d₂ u₂ s₂ z₂ : Str)
    (ha₁ : ∀ c ∈ a₁, pyIsSpace c = true) (hz₁ : ∀ c ∈ z₁, pyIsSpace c = true)
    (ha₂ : ∀ c ∈ a₂, pyIsSpace c = true) (hz₂ : ∀ c ∈ z₂, pyIsSpace c = true)
    (hd₁ : ∀ c ∈ d₁, c.isDigit = true) (hd₁n : d₁ ≠ [])
    (hd₂ : ∀ c ∈ d₂, c.isDigit = true) (hd₂n : d₂ ≠ [])
    (hu₁ : ∀ c ∈ u₁, pyIsSpace c = true) (hu₁n : u₁ ≠ [])
    (hu₂ : ∀ c ∈ u₂, pyIsSpace c = true) (hu₂n : u₂ ≠ [])
    (hs : pyUpper s₁ = pyUpper s₂)
    (hs₁n : s₁ ≠ []) (hs₂n : s₂ ≠ [])
    (hh1 : headFails pyIsSpace (pyUpper s₁) = true)
    (hh3 : headFails pyIsSpace (pyUpper s₁).reverse = true)
    (hni₁ : isInterAddr (normAddr (a₁ ++ d₁ ++ u₁ ++ s₁ ++ z₁)) = false)
    (hni₂ : isInterAddr (normAddr (a₂ ++ d₂ ++ u₂ ++ s₂ ++ z₂)) = false) :
    topStreets [some (a₁ ++ d₁ ++ u₁ ++ s₁ ++ z₁), some (a₂ ++ d₂ ++ u₂ ++ s₂ ++ z₂)]
      = [(replaceSub blockOf (pyUpper s₁), 2)] := by
  have h1 : cleanStreet (normAddr (a₁ ++ d₁ ++ u₁ ++ s₁ ++ z₁))
      = replaceSub blockOf (pyUpper s₁) :=
    streetKey_decomp a₁ d₁ u₁ s₁ z₁ ha₁ hz₁ hd₁ hd₁n hu₁ hu₁n hs₁n hh1 hh3
  have h2 : cleanStreet (normAddr (a₂ ++ d₂ ++ u₂ ++ s₂ ++ z₂))
      = replaceSub blockOf (pyUpper s₁) := by
    rw [hs] at hh1 hh3
    rw [streetKey_decomp a₂ d₂ u₂ s₂ z₂ ha₂ hz₂ hd₂ hd₂n hu₂ hu₂n hs₂n hh1 hh3, hs]
  have hcol : collect [some (a₁ ++ d₁ ++ u₁ ++ s₁ ++ z₁),
      some (a₂ ++ d₂ ++ u₂ ++ s₂ ++ z₂)]
      = ([replaceSub blockOf (pyUpper s₁), replaceSub blockOf (pyUpper s₁)], []) := by
    simp only [collect]
    rw [if_neg (by simp only [Bool.not_eq_true]; exact hni₁),
      if_neg (by simp only [Bool.not_eq_true]; exact hni₂), h1, h2]
  show mostCommon 10 (collect [some (a₁ ++ d₁ ++ u₁ ++ s₁ ++ z₁),
      some (a₂ ++ d₂ ++ u₂ ++ s₂ ++ z₂)]).1 = _
  rw [hcol]
  exact mostCommon_pair _

/-- Witness for C6: the spec's example pair `"1200 W MARKHAM"` /
`"1201 w markham"` groups to the single key `"W MARKHAM"` with count 2. -/
theorem claim_C6_witness :
    topStreets [some "1200 W MARKHAM".data, some "1201 w markham".data]
      = [("W MARKHAM".data, 2)] := by
  have h := claim_C6 [] "1200".data " ".data "W MARKHAM".data []
      [] "1201".data " ".data "w markham".data []
      (by decide) (by decide) (by decide) (by decide) (by decide) (by decide)
      (by decide) (by decide) (by decide) (by decide) (by decide) (by decide)
      (by decide) (by decide) (by decide) (by decide) (by decide)
      (by decide) (by decide)
  have e1 : ([] : Str) ++ "1200".data ++ " ".data ++ "W MARKHAM".data ++ []
      = "1200 W MARKHAM".data := by decide
  have e2 : ([] : Str) ++ "1201".data ++ " ".data ++ "w markham".data ++ []
      = "1201 w markham".data := by decide
  rw [e1, e2] at h
  rw [h]
  decide

end Potholes
